import Mathlib

/-!
Verification development for the StaffScheduler constraint-scheduling core
(`scheduler/models.py` and `scheduler/solver.py`).

The Python data model and the solver's model-building, extraction and metric
code are shallowly embedded as executable Lean definitions.  The CP-SAT model
built by `AdvancedScheduleSolver._build_model` is represented by a decidable
admissibility predicate over raw boolean assignments: every auxiliary variable
the Python code introduces (`works_day`, `coverage_met`, `is_shift_start`,
`has_split`, ...) is fully determined by the shift variables through
`AddMaxEquality` or a pair of `OnlyEnforceIf` constraints, so it is inlined as
a boolean expression of the shift variables.
-/

namespace StaffScheduler

/-- A one-hour slot `(day, hour)`; `models.TimeSlot`. -/
structure TimeSlot where
  day : Nat
  hour : Nat
deriving DecidableEq, Repr

/-- `models.ShiftRoleRequirement`: staffing demand of one role inside a shift
template.  `maxCount = 0` means "same as `count`". -/
structure ShiftRoleRequirement where
  roleId : String
  count : Nat
  maxCount : Nat
deriving DecidableEq, Repr

/-- `models.ShiftTemplate` (fields the compiler reads). -/
structure ShiftTemplate where
  startHour : Nat
  endHour : Nat
  roles : List ShiftRoleRequirement
  days : List Nat
deriving DecidableEq, Repr

/-- `models.PeakPeriod`. -/
structure PeakPeriod where
  startHour : Nat
  endHour : Nat
  days : List Nat
deriving DecidableEq, Repr

/-- `PeakPeriod.includes`. -/
def PeakPeriod.includes (p : PeakPeriod) (day hour : Nat) : Bool :=
  decide (day ∈ p.days) && decide (p.startHour ≤ hour) && decide (hour < p.endHour)

/-- `models.CoverageRequirement`. -/
structure CoverageRequirement where
  day : Nat
  hour : Nat
  roleId : String
  minStaff : Nat
  maxStaff : Nat
  isPeak : Bool
deriving DecidableEq, Repr

/-- `models.Employee` (the fields the solver reads).  `isFullTime` stands for
`classification == EmployeeClassification.FULL_TIME`. -/
structure Employee where
  id : String
  name : String
  isFullTime : Bool
  minHours : Nat
  maxHours : Nat
  roles : List String
  availability : List TimeSlot
  preferences : List TimeSlot
  timeOff : List TimeSlot
  needsSupervision : Bool
  canSupervise : Bool
  overtimeAllowed : Bool
deriving DecidableEq, Repr

/-- `Employee.is_available`: in availability and not on time off. -/
def Employee.is_available (e : Employee) (day hour : Nat) : Bool :=
  decide ((⟨day, hour⟩ : TimeSlot) ∈ e.availability) &&
    !decide ((⟨day, hour⟩ : TimeSlot) ∈ e.timeOff)

/-- `Employee.is_blocked`. -/
def Employee.is_blocked (e : Employee) (day hour : Nat) : Bool :=
  decide ((⟨day, hour⟩ : TimeSlot) ∈ e.timeOff)

/-- `Employee.prefers`. -/
def Employee.prefers (e : Employee) (day hour : Nat) : Bool :=
  decide ((⟨day, hour⟩ : TimeSlot) ∈ e.preferences)

/-- `Employee.add_time_off(day, start_hour, end_hour)`.  With the hour bounds
omitted (`none`) every hour `0..23` of the day is blocked, otherwise the hours
of `[start, end)`.  The Python set insertion is modelled by list append (only
membership is ever observed). -/
def Employee.add_time_off (e : Employee) (day : Nat) (bounds : Option (Nat × Nat)) :
    Employee :=
  match bounds with
  | none =>
      { e with timeOff := e.timeOff ++ (List.range 24).map (fun h => ⟨day, h⟩) }
  | some (s, t) =>
      { e with timeOff := e.timeOff ++ (List.range' s (t - s)).map (fun h => ⟨day, h⟩) }

/-- `models.BusinessScenario` (scheduling-relevant fields). -/
structure BusinessScenario where
  startHour : Nat
  endHour : Nat
  daysOpen : List Nat
  employees : List Employee
  coverageRequirements : List CoverageRequirement
  peakPeriods : List PeakPeriod
  shiftTemplates : List ShiftTemplate
deriving Repr

/-- `BusinessScenario.get_operating_hours()`: `range(start_hour, end_hour)`. -/
def operating_hours (scen : BusinessScenario) : List Nat :=
  List.range' scen.startHour (scen.endHour - scen.startHour)

/-- `BusinessScenario.is_peak_hour`. -/
def is_peak_hour (scen : BusinessScenario) (day hour : Nat) : Bool :=
  scen.peakPeriods.any (fun p => p.includes day hour)

/-! ## Coverage compiler (`BusinessScenario.generate_coverage_from_shifts`) -/

/-- Aggregation key of the shifts-mode compiler: `(day, hour, role_id)`. -/
abbrev ReqKey := Nat × Nat × String

/-- One `req_map` update of `generate_coverage_from_shifts`:
`req_map[key] = (current_min + count, current_max + max_count)`, with the key
inserted (initialised to `(0, 0)`) when absent.  Python dict insertion order is
preserved. -/
def upsertReq : List (ReqKey × Nat × Nat) → ReqKey → Nat → Nat → List (ReqKey × Nat × Nat)
  | [], k, c, mc => [(k, c, mc)]
  | (k', v) :: t, k, c, mc =>
      if k' = k then (k', v.1 + c, v.2 + mc) :: t else (k', v) :: upsertReq t k c mc

/-- Dict lookup on the insertion-ordered association list. -/
def lookupReq : List (ReqKey × Nat × Nat) → ReqKey → Option (Nat × Nat)
  | [], _ => none
  | (k', v) :: t, k => if k' = k then some v else lookupReq t k

/-- The `(key, count, max_count)` updates the role loop of
`generate_coverage_from_shifts` performs for one `(day, hour)`:
`max_count = role_req.max_count if role_req.max_count > 0 else role_req.count`. -/
def roleContribs (day hour : Nat) (roles : List ShiftRoleRequirement) :
    List (ReqKey × Nat × Nat) :=
  roles.map fun rr =>
    ((day, hour, rr.roleId), rr.count, if 0 < rr.maxCount then rr.maxCount else rr.count)

/-- The updates of the hour loop for one day of one template: hours range over
`range(shift.start_hour, shift.end_hour)` and hours outside
`[scenario.start_hour, scenario.end_hour)` are skipped by `continue`. -/
def hourContribs (scen : BusinessScenario) (sh : ShiftTemplate) (day : Nat) :
    List (ReqKey × Nat × Nat) :=
  (List.range' sh.startHour (sh.endHour - sh.startHour)).flatMap fun hour =>
    if hour < scen.startHour ∨ scen.endHour ≤ hour then []
    else roleContribs day hour sh.roles

/-- The updates of the day loop of one template: days not in `days_open` are
skipped by `continue`. -/
def dayContribs (scen : BusinessScenario) (sh : ShiftTemplate) :
    List (ReqKey × Nat × Nat) :=
  sh.days.flatMap fun day =>
    if day ∈ scen.daysOpen then hourContribs scen sh day else []

/-- All `(key, count, max_count)` updates performed by the nested loops of
`generate_coverage_from_shifts`, in execution order. -/
def shiftContribs (scen : BusinessScenario) : List (ReqKey × Nat × Nat) :=
  scen.shiftTemplates.flatMap fun sh => dayContribs scen sh

/-- The fully accumulated `req_map` dict. -/
def buildReqMap (scen : BusinessScenario) : List (ReqKey × Nat × Nat) :=
  (shiftContribs scen).foldl (fun m c => upsertReq m c.1 c.2.1 c.2.2) []

/-- `BusinessScenario.generate_coverage_from_shifts`: the empty-template early
return, then one `CoverageRequirement` per accumulated key, `is_peak` marked by
the peak-period predicate. -/
def generate_coverage_from_shifts (scen : BusinessScenario) : List CoverageRequirement :=
  if scen.shiftTemplates.isEmpty then []
  else
    (buildReqMap scen).map fun kv =>
      { day := kv.1.1, hour := kv.1.2.1, roleId := kv.1.2.2,
        minStaff := kv.2.1, maxStaff := kv.2.2,
        isPeak := is_peak_hour scen kv.1.1 kv.1.2.1 }

/-- `max_count or count` of a `ShiftRoleRequirement` (0 meaning "same as count"). -/
def effMaxCount (rr : ShiftRoleRequirement) : Nat :=
  if 0 < rr.maxCount then rr.maxCount else rr.count

/-- Specification-level compiled minimum at `(d, h, r)`: templates covering the
slot contribute the sum of `count` over their role requirements for `r`, and
overlapping templates sum. -/
def specMinStaff (scen : BusinessScenario) (d h : Nat) (r : String) : Nat :=
  (scen.shiftTemplates.map fun t =>
    if d ∈ t.days ∧ d ∈ scen.daysOpen ∧ t.startHour ≤ h ∧ h < t.endHour ∧
        scen.startHour ≤ h ∧ h < scen.endHour
    then ((t.roles.filter fun rr => rr.roleId = r).map fun rr => rr.count).sum
    else 0).sum

/-- Specification-level compiled maximum at `(d, h, r)`. -/
def specMaxStaff (scen : BusinessScenario) (d h : Nat) (r : String) : Nat :=
  (scen.shiftTemplates.map fun t =>
    if d ∈ t.days ∧ d ∈ scen.daysOpen ∧ t.startHour ≤ h ∧ h < t.endHour ∧
        scen.startHour ≤ h ∧ h < scen.endHour
    then ((t.roles.filter fun rr => rr.roleId = r).map effMaxCount).sum
    else 0).sum

theorem lookupReq_upsertReq (m : List (ReqKey × Nat × Nat)) (k k' : ReqKey) (c mc : Nat) :
    lookupReq (upsertReq m k c mc) k' =
      if k = k' then
        match lookupReq m k' with
        | none => some (c, mc)
        | some v => some (v.1 + c, v.2 + mc)
      else lookupReq m k' := by
  induction m with
  | nil =>
      by_cases h : k = k' <;> simp [upsertReq, lookupReq, h]
  | cons a t ih =>
      obtain ⟨ka, va⟩ := a
      by_cases hak : ka = k
      · subst hak
        by_cases hk' : ka = k'
        · subst hk'
          simp [upsertReq, lookupReq]
        · simp [upsertReq, lookupReq, hk']
      · by_cases hk' : ka = k'
        · subst hk'
          have : ¬ k = ka := fun h => hak h.symm
          simp [upsertReq, lookupReq, hak, this]
        · simp [upsertReq, lookupReq, hak, hk', ih]

theorem lookupReq_foldl_upsert (l : List (ReqKey × Nat × Nat)) (m : List (ReqKey × Nat × Nat))
    (k : ReqKey) :
    lookupReq (l.foldl (fun m c => upsertReq m c.1 c.2.1 c.2.2) m) k =
      (match lookupReq m k, (l.filter fun c => c.1 = k) with
       | none, [] => none
       | none, fl => some ((fl.map fun c => c.2.1).sum, (fl.map fun c => c.2.2).sum)
       | some v, fl => some (v.1 + (fl.map fun c => c.2.1).sum,
            v.2 + (fl.map fun c => c.2.2).sum)) := by
  induction l generalizing m with
  | nil =>
      cases h : lookupReq m k <;> simp [List.foldl, h]
  | cons c t ih =>
      by_cases hc : c.1 = k
      · rw [List.foldl_cons, ih, lookupReq_upsertReq]
        simp only [hc, if_pos rfl]
        cases h : lookupReq m k <;>
          cases hf : (t.filter fun c => c.1 = k) <;>
            simp [List.filter_cons, hc, hf, Nat.add_assoc]
      · rw [List.foldl_cons, ih, lookupReq_upsertReq, if_neg hc]
        simp [List.filter_cons, hc]

theorem lookupReq_eq_none_iff (m : List (ReqKey × Nat × Nat)) (k : ReqKey) :
    lookupReq m k = none ↔ k ∉ m.map Prod.fst := by
  induction m with
  | nil => simp [lookupReq]
  | cons a t ih =>
      obtain ⟨ka, va⟩ := a
      by_cases h : ka = k
      · subst h
        simp [lookupReq]
      · have hne : k ≠ ka := fun hh => h hh.symm
        rw [List.map_cons,
          show lookupReq ((ka, va) :: t) k = lookupReq t k from by simp [lookupReq, h], ih]
        simp [List.mem_cons, hne]

theorem upsertReq_keys (m : List (ReqKey × Nat × Nat)) (k : ReqKey) (c mc : Nat) :
    (upsertReq m k c mc).map Prod.fst =
      if k ∈ m.map Prod.fst then m.map Prod.fst else m.map Prod.fst ++ [k] := by
  induction m with
  | nil => simp [upsertReq]
  | cons a t ih =>
      obtain ⟨ka, va⟩ := a
      by_cases h : ka = k
      · subst h
        simp [upsertReq]
      · have hne : ¬ k = ka := fun hh => h hh.symm
        by_cases hmem : k ∈ t.map Prod.fst <;> simp [upsertReq, h, hne, hmem, ih]

theorem upsertReq_keys_nodup (m : List (ReqKey × Nat × Nat)) (k : ReqKey) (c mc : Nat)
    (hm : (m.map Prod.fst).Nodup) : ((upsertReq m k c mc).map Prod.fst).Nodup := by
  rw [upsertReq_keys]
  by_cases h : k ∈ m.map Prod.fst
  · rw [if_pos h]
    exact hm
  · rw [if_neg h]
    refine List.Nodup.append hm (List.nodup_singleton k) ?_
    intro a ha hak
    rw [List.mem_singleton] at hak
    subst hak
    exact h ha

theorem foldl_upsert_keys_nodup (l : List (ReqKey × Nat × Nat))
    (m : List (ReqKey × Nat × Nat)) (hm : (m.map Prod.fst).Nodup) :
    (((l.foldl (fun m c => upsertReq m c.1 c.2.1 c.2.2) m)).map Prod.fst).Nodup := by
  induction l generalizing m with
  | nil => simpa using hm
  | cons c t ih => exact ih _ (upsertReq_keys_nodup _ _ _ _ hm)

theorem filter_eq_of_lookup (m : List (ReqKey × Nat × Nat)) (k : ReqKey)
    (hm : (m.map Prod.fst).Nodup) :
    (m.filter fun kv => kv.1 = k) =
      (match lookupReq m k with
       | some v => [(k, v)]
       | none => []) := by
  induction m with
  | nil => simp [lookupReq]
  | cons a t ih =>
      obtain ⟨ka, va⟩ := a
      simp only [List.map_cons, List.nodup_cons] at hm
      by_cases h : ka = k
      · subst h
        have ht : (t.filter fun kv => kv.1 = ka) = [] := by
          apply List.filter_eq_nil_iff.2
          intro kv hkv hmem
          exact hm.1 (by
            have : kv.1 = ka := by simpa using hmem
            exact this ▸ List.mem_map_of_mem Prod.fst hkv)
        simp [lookupReq, List.filter_cons, ht]
      · simp [lookupReq, List.filter_cons, h, ih hm.2]

theorem sum_filter_bind {α β : Type} (l : List α) (f : α → List β) (p : β → Bool)
    (g : β → Nat) :
    (((l.flatMap f).filter p).map g).sum =
      (l.map fun x => (((f x).filter p).map g).sum).sum := by
  induction l with
  | nil => simp
  | cons a t ih => simp [List.flatMap_cons, List.filter_append, ih]

theorem sum_eq_single_mem {α : Type} [DecidableEq α] (l : List α) (S : α → Nat) (x : α)
    (hz : ∀ y ∈ l, y ≠ x → S y = 0) (hnd : l.Nodup) :
    (l.map S).sum = if x ∈ l then S x else 0 := by
  induction l with
  | nil => simp
  | cons a t ih =>
      simp only [List.nodup_cons] at hnd
      by_cases h : a = x
      · subst h
        have ht : (t.map S).sum = 0 :=
          List.sum_eq_zero (by
            intro v hv
            simp only [List.mem_map] at hv
            obtain ⟨y, hy, rfl⟩ := hv
            exact hz y (List.mem_cons_of_mem _ hy) (fun hxy => hnd.1 (hxy ▸ hy)))
        simp [ht]
      · have hne : x ≠ a := fun hh => h hh.symm
        rw [List.map_cons, List.sum_cons,
          hz a (List.mem_cons_self a t) h,
          ih (fun y hy => hz y (List.mem_cons_of_mem _ hy)) hnd.2]
        simp [List.mem_cons, hne]

theorem mem_roleContribs_key {day hour : Nat} {roles : List ShiftRoleRequirement}
    {c : ReqKey × Nat × Nat} (hc : c ∈ roleContribs day hour roles) :
    c.1.1 = day ∧ c.1.2.1 = hour := by
  simp only [roleContribs, List.mem_map] at hc
  obtain ⟨rr, _, rfl⟩ := hc
  exact ⟨rfl, rfl⟩

theorem mem_hourContribs_day {scen : BusinessScenario} {sh : ShiftTemplate} {day : Nat}
    {c : ReqKey × Nat × Nat} (hc : c ∈ hourContribs scen sh day) : c.1.1 = day := by
  simp only [hourContribs, List.mem_flatMap] at hc
  obtain ⟨hour, _, hin⟩ := hc
  by_cases hcond : hour < scen.startHour ∨ scen.endHour ≤ hour
  · rw [if_pos hcond] at hin
    exact absurd hin (List.not_mem_nil c)
  · rw [if_neg hcond] at hin
    exact (mem_roleContribs_key hin).1

theorem filter_map_key_sum {α : Type} (l : List α) (f : α → ReqKey × Nat × Nat) (k : ReqKey)
    (g : ReqKey × Nat × Nat → Nat) (p : α → Bool) (sel : α → Nat)
    (hiff : ∀ x ∈ l, (decide ((f x).1 = k)) = p x)
    (hval : ∀ x ∈ l, g (f x) = sel x) :
    (((l.map f).filter fun c => c.1 = k).map g).sum = ((l.filter p).map sel).sum := by
  induction l with
  | nil => simp
  | cons x t ih =>
      have hx := hiff x (List.mem_cons_self x t)
      have hv := hval x (List.mem_cons_self x t)
      have iht := ih (fun y hy => hiff y (List.mem_cons_of_mem _ hy))
        (fun y hy => hval y (List.mem_cons_of_mem _ hy))
      by_cases hp : p x = true
      · rw [hp] at hx
        simp [List.filter_cons, hx, hp, hv, iht]
      · have hpf : p x = false := by revert hp; cases p x <;> simp
        rw [hpf] at hx
        simp [List.filter_cons, hx, hpf, iht]

theorem roleContribs_filter_sum (day hour : Nat) (roles : List ShiftRoleRequirement)
    (r : String) (g : ReqKey × Nat × Nat → Nat) (sel : ShiftRoleRequirement → Nat)
    (hsel : ∀ rr ∈ roles,
      g ((day, hour, rr.roleId), rr.count,
          if 0 < rr.maxCount then rr.maxCount else rr.count) = sel rr) :
    (((roleContribs day hour roles).filter fun c => c.1 = (day, hour, r)).map g).sum
      = ((roles.filter fun rr => rr.roleId = r).map sel).sum := by
  unfold roleContribs
  exact filter_map_key_sum roles _ (day, hour, r) g _ sel
    (fun rr _ => decide_eq_decide.2 (by simp)) hsel

theorem hourContribs_filter_sum (scen : BusinessScenario) (sh : ShiftTemplate) (d h : Nat)
    (r : String) (g : ReqKey × Nat × Nat → Nat) (sel : ShiftRoleRequirement → Nat)
    (hsel : ∀ rr ∈ sh.roles,
      g ((d, h, rr.roleId), rr.count,
          if 0 < rr.maxCount then rr.maxCount else rr.count) = sel rr) :
    (((hourContribs scen sh d).filter fun c => c.1 = (d, h, r)).map g).sum
      = if sh.startHour ≤ h ∧ h < sh.endHour ∧ scen.startHour ≤ h ∧ h < scen.endHour
        then ((sh.roles.filter fun rr => rr.roleId = r).map sel).sum else 0 := by
  unfold hourContribs
  rw [sum_filter_bind]
  have hz : ∀ hour ∈ List.range' sh.startHour (sh.endHour - sh.startHour), hour ≠ h →
      ((((if hour < scen.startHour ∨ scen.endHour ≤ hour then []
          else roleContribs d hour sh.roles).filter fun c => c.1 = (d, h, r)).map g)).sum = 0 := by
    intro hour _ hne
    by_cases hcond : hour < scen.startHour ∨ scen.endHour ≤ hour
    · simp [hcond]
    · rw [if_neg hcond]
      have hnil : ((roleContribs d hour sh.roles).filter fun c => c.1 = (d, h, r)) = [] := by
        apply List.filter_eq_nil_iff.2
        intro c hc hkey
        have hhour := (mem_roleContribs_key hc).2
        have : c.1 = (d, h, r) := of_decide_eq_true hkey
        rw [this] at hhour
        exact hne hhour.symm
      simp [hnil]
  rw [sum_eq_single_mem _ _ h hz (List.nodup_range' _ _)]
  have hmemiff : h ∈ List.range' sh.startHour (sh.endHour - sh.startHour) ↔
      (sh.startHour ≤ h ∧ h < sh.endHour) := by
    rw [List.mem_range'_1]
    omega
  by_cases hin : sh.startHour ≤ h ∧ h < sh.endHour
  · rw [if_pos (hmemiff.2 hin)]
    by_cases hcond : h < scen.startHour ∨ scen.endHour ≤ h
    · rw [if_pos hcond,
        if_neg (by omega :
          ¬(sh.startHour ≤ h ∧ h < sh.endHour ∧ scen.startHour ≤ h ∧ h < scen.endHour))]
      simp
    · rw [if_neg hcond, roleContribs_filter_sum d h sh.roles r g sel hsel,
        if_pos (by omega)]
  · rw [if_neg (fun hh => hin (hmemiff.1 hh)), if_neg (by omega)]

theorem dayContribs_filter_sum (scen : BusinessScenario) (sh : ShiftTemplate)
    (hnd : sh.days.Nodup) (d h : Nat) (r : String) (g : ReqKey × Nat × Nat → Nat)
    (sel : ShiftRoleRequirement → Nat)
    (hsel : ∀ rr ∈ sh.roles,
      g ((d, h, rr.roleId), rr.count,
          if 0 < rr.maxCount then rr.maxCount else rr.count) = sel rr) :
    (((dayContribs scen sh).filter fun c => c.1 = (d, h, r)).map g).sum
      = if d ∈ sh.days ∧ d ∈ scen.daysOpen ∧ sh.startHour ≤ h ∧ h < sh.endHour ∧
            scen.startHour ≤ h ∧ h < scen.endHour
        then ((sh.roles.filter fun rr => rr.roleId = r).map sel).sum else 0 := by
  unfold dayContribs
  rw [sum_filter_bind]
  have hz : ∀ day ∈ sh.days, day ≠ d →
      ((((if day ∈ scen.daysOpen then hourContribs scen sh day else []).filter
          fun c => c.1 = (d, h, r)).map g)).sum = 0 := by
    intro day _ hne
    by_cases hopen : day ∈ scen.daysOpen
    · rw [if_pos hopen]
      have hnil : ((hourContribs scen sh day).filter fun c => c.1 = (d, h, r)) = [] := by
        apply List.filter_eq_nil_iff.2
        intro c hc hkey
        have hday := mem_hourContribs_day hc
        have : c.1 = (d, h, r) := of_decide_eq_true hkey
        rw [this] at hday
        exact hne hday.symm
      simp [hnil]
    · simp [hopen]
  rw [sum_eq_single_mem _ _ d hz hnd]
  by_cases hd : d ∈ sh.days
  · rw [if_pos hd]
    by_cases hopen : d ∈ scen.daysOpen
    · rw [if_pos hopen, hourContribs_filter_sum scen sh d h r g sel hsel]
      by_cases hh : sh.startHour ≤ h ∧ h < sh.endHour ∧ scen.startHour ≤ h ∧ h < scen.endHour
      · rw [if_pos hh, if_pos ⟨hd, hopen, hh.1, hh.2.1, hh.2.2.1, hh.2.2.2⟩]
      · rw [if_neg hh, if_neg (by tauto)]
    · rw [if_neg hopen, if_neg (by tauto)]
      simp
  · rw [if_neg hd, if_neg (by tauto)]

theorem shiftContribs_filter_sum_min (scen : BusinessScenario)
    (hnd : ∀ t ∈ scen.shiftTemplates, t.days.Nodup) (d h : Nat) (r : String) :
    (((shiftContribs scen).filter fun c => c.1 = (d, h, r)).map fun c => c.2.1).sum
      = specMinStaff scen d h r := by
  unfold shiftContribs specMinStaff
  rw [sum_filter_bind]
  apply congrArg
  apply List.map_congr_left
  intro t ht
  exact dayContribs_filter_sum scen t (hnd t ht) d h r _ (fun rr => rr.count)
    (fun rr _ => rfl)

theorem shiftContribs_filter_sum_max (scen : BusinessScenario)
    (hnd : ∀ t ∈ scen.shiftTemplates, t.days.Nodup) (d h : Nat) (r : String) :
    (((shiftContribs scen).filter fun c => c.1 = (d, h, r)).map fun c => c.2.2).sum
      = specMaxStaff scen d h r := by
  unfold shiftContribs specMaxStaff
  rw [sum_filter_bind]
  apply congrArg
  apply List.map_congr_left
  intro t ht
  exact dayContribs_filter_sum scen t (hnd t ht) d h r _ effMaxCount
    (fun rr _ => rfl)

theorem buildReqMap_keys_nodup (scen : BusinessScenario) :
    ((buildReqMap scen).map Prod.fst).Nodup :=
  foldl_upsert_keys_nodup _ [] (by simp)

theorem lookupReq_buildReqMap (scen : BusinessScenario) (k : ReqKey) :
    lookupReq (buildReqMap scen) k =
      (match (shiftContribs scen).filter fun c => c.1 = k with
       | [] => none
       | fl => some ((fl.map fun c => c.2.1).sum, (fl.map fun c => c.2.2).sum)) := by
  unfold buildReqMap
  rw [lookupReq_foldl_upsert]
  cases hf : (shiftContribs scen).filter fun c => c.1 = k with
  | nil => simp [lookupReq, hf]
  | cons c t => simp [lookupReq, hf]

/-- Filtering the generated requirement list down to one `(d, h, r)` key equals
mapping the dict's (at most one) entry for that key. -/
theorem generated_filter_eq (scen : BusinessScenario) (d h : Nat) (r : String)
    (hne : ¬ scen.shiftTemplates.isEmpty) :
    ((generate_coverage_from_shifts scen).filter fun q =>
        decide (q.day = d) && decide (q.hour = h) && decide (q.roleId = r))
      = (match lookupReq (buildReqMap scen) (d, h, r) with
         | some v =>
            [{ day := d, hour := h, roleId := r, minStaff := v.1, maxStaff := v.2,
               isPeak := is_peak_hour scen d h }]
         | none => []) := by
  unfold generate_coverage_from_shifts
  rw [if_neg hne, List.filter_map]
  have hcong : ∀ kv ∈ buildReqMap scen,
      ((fun q => decide (q.day = d) && decide (q.hour = h) && decide (q.roleId = r)) ∘
        (fun kv : ReqKey × Nat × Nat =>
          ({ day := kv.1.1, hour := kv.1.2.1, roleId := kv.1.2.2,
             minStaff := kv.2.1, maxStaff := kv.2.2,
             isPeak := is_peak_hour scen kv.1.1 kv.1.2.1 } : CoverageRequirement))) kv
        = decide (kv.1 = (d, h, r)) := by
    intro kv _
    simp only [Function.comp]
    rcases kv with ⟨⟨kd, kh, kr⟩, v⟩
    simp [Prod.ext_iff, Bool.and_assoc]
  rw [List.filter_congr hcong, filter_eq_of_lookup _ _ (buildReqMap_keys_nodup scen)]
  cases hlk : lookupReq (buildReqMap scen) (d, h, r) with
  | none => simp
  | some v => simp

/-- C3: shifts-mode coverage compilation.  General part: for every scenario
(whose templates list each day once, as sets of days), every `(d, h, r)` key
receives minimum `= Σ r.count` and maximum `= Σ (r.max_count or r.count)` over
all templates covering that open day and operating hour — overlapping
templates sum — and the compiler emits at most one requirement per key.
Concrete part: templates `(9-13, {r:1})` and `(12-15, {r:1})` on an open
Monday compile to minima 1 for hours 9-11, 2 for hour 12, and 1 for hours
13-14. -/
theorem shifts_mode_compilation_correct :
    (∀ scen : BusinessScenario, (∀ t ∈ scen.shiftTemplates, t.days.Nodup) →
      ∀ d h : Nat, ∀ r : String,
        ((((generate_coverage_from_shifts scen).filter fun q =>
            decide (q.day = d) && decide (q.hour = h) && decide (q.roleId = r)).map
              CoverageRequirement.minStaff).sum = specMinStaff scen d h r) ∧
        ((((generate_coverage_from_shifts scen).filter fun q =>
            decide (q.day = d) && decide (q.hour = h) && decide (q.roleId = r)).map
              CoverageRequirement.maxStaff).sum = specMaxStaff scen d h r) ∧
        ((generate_coverage_from_shifts scen).filter fun q =>
            decide (q.day = d) && decide (q.hour = h) && decide (q.roleId = r)).length ≤ 1)
    ∧ ((generate_coverage_from_shifts
          { startHour := 8, endHour := 16, daysOpen := [0], employees := [],
            coverageRequirements := [], peakPeriods := [],
            shiftTemplates :=
              [{ startHour := 9, endHour := 13, roles := [⟨"r", 1, 0⟩], days := [0] },
               { startHour := 12, endHour := 15, roles := [⟨"r", 1, 0⟩], days := [0] }] }).map
        (fun q => (q.hour, q.minStaff))
        = [(9, 1), (10, 1), (11, 1), (12, 2), (13, 1), (14, 1)]) := by
  constructor
  · intro scen hnd d h r
    by_cases hemp : scen.shiftTemplates.isEmpty
    · have htempl : scen.shiftTemplates = [] := List.isEmpty_iff.1 hemp
      refine ⟨?_, ?_, ?_⟩ <;>
        simp [generate_coverage_from_shifts, hemp, specMinStaff, specMaxStaff, htempl]
    · have hmin := shiftContribs_filter_sum_min scen hnd d h r
      have hmax := shiftContribs_filter_sum_max scen hnd d h r
      rw [generated_filter_eq scen d h r hemp]
      rw [lookupReq_buildReqMap]
      cases hf : (shiftContribs scen).filter fun c => c.1 = (d, h, r) with
      | nil =>
          rw [hf] at hmin hmax
          simp only [List.map_nil, List.sum_nil] at hmin hmax
          exact ⟨by simp [← hmin], by simp [← hmax], by simp⟩
      | cons c t =>
          rw [hf] at hmin hmax
          refine ⟨?_, ?_, ?_⟩ <;> simp [← hmin, ← hmax]
  · rfl

/-- Witness for the general part of C3 on the two-template scenario: at
Monday hour 12 the compiled minimum is 2 (the spec sum of the two overlapping
templates) and exactly one requirement carries that key. -/
theorem shifts_mode_compilation_correct_witness :
    ((((generate_coverage_from_shifts
        { startHour := 8, endHour := 16, daysOpen := [0], employees := [],
          coverageRequirements := [], peakPeriods := [],
          shiftTemplates :=
            [{ startHour := 9, endHour := 13, roles := [⟨"r", 1, 0⟩], days := [0] },
             { startHour := 12, endHour := 15, roles := [⟨"r", 1, 0⟩], days := [0] }] }).filter
          fun q => decide (q.day = 0) && decide (q.hour = 12) && decide (q.roleId = "r")).map
            CoverageRequirement.minStaff).sum
      = specMinStaff
          { startHour := 8, endHour := 16, daysOpen := [0], employees := [],
            coverageRequirements := [], peakPeriods := [],
            shiftTemplates :=
              [{ startHour := 9, endHour := 13, roles := [⟨"r", 1, 0⟩], days := [0] },
               { startHour := 12, endHour := 15, roles := [⟨"r", 1, 0⟩], days := [0] }] }
          0 12 "r") ∧
    specMinStaff
        { startHour := 8, endHour := 16, daysOpen := [0], employees := [],
          coverageRequirements := [], peakPeriods := [],
          shiftTemplates :=
            [{ startHour := 9, endHour := 13, roles := [⟨"r", 1, 0⟩], days := [0] },
             { startHour := 12, endHour := 15, roles := [⟨"r", 1, 0⟩], days := [0] }] }
        0 12 "r" = 2 :=
  ⟨(shifts_mode_compilation_correct.1 _ (by decide) 0 12 "r").1, by decide⟩

/-! ## Model builder (`AdvancedScheduleSolver._build_model`) -/

/-- Raw value of the decision variable `shift[emp_id, day, hour, role_id]`. -/
abbrev Assignment := String → Nat → Nat → String → Bool

/-- The `'off' / 'preferred' / 'required'` modes of the max-days-per-week
policy knobs. -/
inductive DayCapMode where
  | off
  | preferred
  | required
deriving DecidableEq, Repr

/-- The policy knobs of `AdvancedScheduleSolver.__init__` that feed hard
constraints (the scheduling strategy only tilts the objective). -/
structure SolverConfig where
  minShiftHours : Nat
  maxHoursPerDay : Nat
  maxSplitsPerDay : Nat
  maxSplitShiftsPerWeek : Nat
  maxDaysFt : Nat
  maxDaysFtMode : DayCapMode
  maxDaysPt : Nat
  maxDaysPtMode : DayCapMode
deriving DecidableEq, Repr

/-- "Employee works this hour": the max (`AddMaxEquality`) of the employee's
role variables for the hour, counting every occurrence in `emp.roles`. -/
def workingAt (a : Assignment) (e : Employee) (d h : Nat) : Bool :=
  e.roles.any fun rid => a e.id d h rid

/-- Value of `works_day[emp_id, day]`: `AddMaxEquality` over all the day's
shift variables (0 when the employee has no roles or no hour exists). -/
def worksDay (scen : BusinessScenario) (a : Assignment) (e : Employee) (d : Nat) : Bool :=
  (operating_hours scen).any fun h => workingAt a e d h

/-- `AdvancedScheduleSolver._get_employees_for_role`. -/
def get_employees_for_role (scen : BusinessScenario) (roleId : String) : List Employee :=
  scen.employees.filter fun e => roleId ∈ e.roles

/-- The `continue` filter shared by the coverage constraint loop and the
metrics loop: the requirement's day is open and its hour is an operating
hour. -/
def inWindow (scen : BusinessScenario) (req : CoverageRequirement) : Bool :=
  decide (req.day ∈ scen.daysOpen) && decide (req.hour ∈ operating_hours scen)

/-- The value of the `role_shifts` sum of coverage constraint 3 (and of the
`filled` count of `_calculate_metrics`): eligible employees whose shift
variable for `(day, hour, role)` is 1, counted per list entry. -/
def filledCount (scen : BusinessScenario) (a : Assignment) (req : CoverageRequirement) : Nat :=
  (get_employees_for_role scen req.roleId).countP fun e =>
    a e.id req.day req.hour req.roleId

/-- Hard constraint 1 (availability and time off): every role variable of an
unavailable slot is 0. -/
def availabilityOk (scen : BusinessScenario) (a : Assignment) : Bool :=
  scen.employees.all fun e =>
    scen.daysOpen.all fun d =>
      (operating_hours scen).all fun h =>
        e.roles.all fun rid => e.is_available d h || !(a e.id d h rid)

/-- Hard constraint 2 (one role per hour): the per-hour sum of the employee's
role variables (counting duplicate list entries twice, as the Python sum over
`emp.roles` does) is at most 1.  With no roles the sum is 0, so the skipped
empty-list case coincides. -/
def oneRolePerHourOk (scen : BusinessScenario) (a : Assignment) : Bool :=
  scen.employees.all fun e =>
    scen.daysOpen.all fun d =>
      (operating_hours scen).all fun h =>
        (e.roles.countP fun rid => a e.id d h rid) ≤ 1

/-- Hours an employee works on one day (the `daily_hours` sum). -/
def dailyHours (scen : BusinessScenario) (a : Assignment) (e : Employee) (d : Nat) : Nat :=
  ((operating_hours scen).map fun h => e.roles.countP fun rid => a e.id d h rid).sum

/-- Hard constraint 2b: daily hour cap. -/
def maxHoursPerDayOk (scen : BusinessScenario) (cfg : SolverConfig) (a : Assignment) : Bool :=
  scen.employees.all fun e =>
    scen.daysOpen.all fun d => dailyHours scen a e d ≤ cfg.maxHoursPerDay

/-- Hard part of coverage constraint 3 for one requirement: out-of-window
requirements are skipped, requirements with no eligible employee add nothing
(the `role_shifts` list is empty), and otherwise only `S ≤ max_staff` is
unconditional.  The reified `coverage_met` variable is forced to equal
`S ≥ min_staff` by its two `OnlyEnforceIf` constraints and appears nowhere
else, so it restricts the shift variables in no way; it only feeds the
objective. -/
def coverageReqConstraint (scen : BusinessScenario) (a : Assignment)
    (req : CoverageRequirement) : Bool :=
  if inWindow scen req then
    if (get_employees_for_role scen req.roleId).isEmpty then true
    else filledCount scen a req ≤ req.maxStaff
  else true

/-- All coverage constraints of the build. -/
def coverageOk (scen : BusinessScenario) (a : Assignment) : Bool :=
  scen.coverageRequirements.all (coverageReqConstraint scen a)

/-- `WEIGHT_COVERAGE`. -/
def WEIGHT_COVERAGE : Int := 1000

/-- Objective contribution `coverage_met * WEIGHT_COVERAGE` of one coverage
requirement: 1000 exactly when the requirement is in the window, has at least
one eligible employee and `S ≥ min_staff`; skipped requirements and
requirements with no eligible employee contribute no term. -/
def coverageReqObjTerm (scen : BusinessScenario) (a : Assignment)
    (req : CoverageRequirement) : Int :=
  if inWindow scen req then
    if (get_employees_for_role scen req.roleId).isEmpty then 0
    else if req.minStaff ≤ filledCount scen a req then WEIGHT_COVERAGE else 0
  else 0

/-- The coverage block of the maximized objective. -/
def coverageObjective (scen : BusinessScenario) (a : Assignment) : Int :=
  (scen.coverageRequirements.map (coverageReqObjTerm scen a)).sum

/-- Hard constraint 4 (supervision): while an employee needing supervision
works, some supervisor works, provided any supervisor variable exists. -/
def supervisionOk (scen : BusinessScenario) (a : Assignment) : Bool :=
  (scen.employees.filter fun e => e.needsSupervision).all fun e =>
    scen.daysOpen.all fun d =>
      (operating_hours scen).all fun h =>
        if e.roles.isEmpty then true
        else if (scen.employees.filter fun s => s.canSupervise).all
            (fun s => s.roles.isEmpty) then true
        else !(workingAt a e d h) ||
          (scen.employees.filter fun s => s.canSupervise).any fun s => workingAt a s d h

/-- Total weekly hours of an employee (the `weekly_hours` sum). -/
def weeklyHours (scen : BusinessScenario) (a : Assignment) (e : Employee) : Nat :=
  (scen.daysOpen.map fun d => dailyHours scen a e d).sum

/-- `emp.max_hours` when overtime is allowed, otherwise `min(40, max_hours)`. -/
def effectiveMaxHours (e : Employee) : Nat :=
  if e.overtimeAllowed then e.maxHours else min 40 e.maxHours

/-- Hard constraint 5 (weekly hours): skipped when the employee has no shift
variable at all, otherwise `min_hours ≤ total ≤ effective max`. -/
def weeklyHoursOk (scen : BusinessScenario) (a : Assignment) : Bool :=
  scen.employees.all fun e =>
    if e.roles.isEmpty || scen.daysOpen.isEmpty || (operating_hours scen).isEmpty then true
    else decide (e.minHours ≤ weeklyHours scen a e) &&
      decide (weeklyHours scen a e ≤ effectiveMaxHours e)

/-- `is_shift_start` at position `i` of the operating-hours list: working now
and, for `i > 0`, not working the previous operating hour. -/
def isShiftStart (scen : BusinessScenario) (a : Assignment) (e : Employee) (d i : Nat) :
    Bool :=
  if i = 0 then workingAt a e d ((operating_hours scen).getD 0 0)
  else workingAt a e d ((operating_hours scen).getD i 0) &&
    !(workingAt a e d ((operating_hours scen).getD (i - 1) 0))

/-- Hard constraint 6 (minimum shift length): a start with
`min_shift_hours` hours remaining forces the following hours; a start with
fewer remaining is forbidden.  Employees without roles are skipped. -/
def minShiftLengthOk (scen : BusinessScenario) (cfg : SolverConfig) (a : Assignment) : Bool :=
  scen.employees.all fun e =>
    if e.roles.isEmpty then true
    else scen.daysOpen.all fun d =>
      (List.range (operating_hours scen).length).all fun i =>
        if i + cfg.minShiftHours ≤ (operating_hours scen).length then
          (List.range cfg.minShiftHours).all fun j =>
            !(isShiftStart scen a e d i) ||
              workingAt a e d ((operating_hours scen).getD (i + j) 0)
        else !(isShiftStart scen a e d i)

/-- Number of shift starts of one employee on one day. -/
def numShiftStarts (scen : BusinessScenario) (a : Assignment) (e : Employee) (d : Nat) :
    Nat :=
  (List.range (operating_hours scen).length).countP fun i => isShiftStart scen a e d i

/-- Hard constraint 7 (max split shifts per day). -/
def maxSplitsPerDayOk (scen : BusinessScenario) (cfg : SolverConfig) (a : Assignment) :
    Bool :=
  scen.employees.all fun e =>
    if e.roles.isEmpty || (operating_hours scen).isEmpty then true
    else scen.daysOpen.all fun d => numShiftStarts scen a e d ≤ cfg.maxSplitsPerDay

/-- Hard constraint 8 (max split-shift days per week): days with at least two
shift starts, counted only when a `has_split` indicator was created (at least
two start variables, i.e. at least two operating hours). -/
def maxSplitWeekOk (scen : BusinessScenario) (cfg : SolverConfig) (a : Assignment) : Bool :=
  scen.employees.all fun e =>
    if e.roles.isEmpty || (operating_hours scen).length < 2 || scen.daysOpen.isEmpty then
      true
    else
      (scen.daysOpen.countP fun d => 2 ≤ numShiftStarts scen a e d) ≤
        cfg.maxSplitShiftsPerWeek

/-- Days worked in the week (the `total_days` sum over `works_day`). -/
def daysWorked (scen : BusinessScenario) (a : Assignment) (e : Employee) : Nat :=
  scen.daysOpen.countP fun d => worksDay scen a e d

/-- Hard constraint of the max-days-per-week policy: only the `'required'`
mode adds one (`'off'` skips, `'preferred'` only penalises the objective). -/
def maxDaysOk (scen : BusinessScenario) (cfg : SolverConfig) (a : Assignment) : Bool :=
  scen.employees.all fun e =>
    if (if e.isFullTime then cfg.maxDaysFtMode else cfg.maxDaysPtMode) =
        DayCapMode.required then
      daysWorked scen a e ≤ (if e.isFullTime then cfg.maxDaysFt else cfg.maxDaysPt)
    else true

/-- Keys of all decision variables of the current build, in creation order. -/
def shiftKeys (scen : BusinessScenario) : List (String × Nat × Nat × String) :=
  scen.employees.flatMap fun e =>
    scen.daysOpen.flatMap fun d =>
      (operating_hours scen).flatMap fun h => e.roles.map fun rid => (e.id, d, h, rid)

/-- Exclusion clause for the stored previous solutions (which, for successive
solves of one unchanged scenario, bind exactly the current keys): for each
previous solution some variable must differ. -/
def exclusionOk (scen : BusinessScenario) (prev : List Assignment) (a : Assignment) :
    Bool :=
  prev.all fun p =>
    if (shiftKeys scen).isEmpty then true
    else (shiftKeys scen).any fun k =>
      a k.1 k.2.1 k.2.2.1 k.2.2.2 ≠ p k.1 k.2.1 k.2.2.1 k.2.2.2

/-- The set of raw assignments admitted by the model `_build_model` builds:
the conjunction of all hard constraints, each auxiliary variable inlined as
the boolean expression it is forced to equal. -/
def modelAdmits (scen : BusinessScenario) (cfg : SolverConfig) (prev : List Assignment)
    (a : Assignment) : Bool :=
  availabilityOk scen a && oneRolePerHourOk scen a && maxHoursPerDayOk scen cfg a &&
    coverageOk scen a && supervisionOk scen a && weeklyHoursOk scen a &&
    minShiftLengthOk scen cfg a && maxSplitsPerDayOk scen cfg a &&
    maxSplitWeekOk scen cfg a && maxDaysOk scen cfg a && exclusionOk scen prev a

/-! ## Schedule assembler, metrics and the solve transition -/

/-- `models.ShiftAssignment` (the display-only colour is omitted). -/
structure ShiftAssignment where
  employeeId : String
  employeeName : String
  day : Nat
  startHour : Nat
  endHour : Nat
  roleId : String
deriving DecidableEq, Repr

/-- Ordered insertion; `sortNat` models Python's `sorted`. -/
def insertSorted (x : Nat) : List Nat → List Nat
  | [] => [x]
  | y :: t => if x ≤ y then x :: y :: t else y :: insertSorted x t

/-- Python `sorted` on a list of numbers. -/
def sortNat (l : List Nat) : List Nat := l.foldr insertSorted []

/-- The inner while-loop of the consolidation in `_extract_shift_assignments`:
extend the current run `[s, e)` while the next stored hour equals `e`. -/
def consolidateAux (s e : Nat) : List Nat → List (Nat × Nat)
  | [] => [(s, e)]
  | h :: t =>
      if h = e then consolidateAux s (e + 1) t else (s, e) :: consolidateAux h (h + 1) t

/-- The outer consolidation loop: emit one `[start_hour, end_hour)` pair per
maximal run of consecutive stored hours. -/
def consolidate : List Nat → List (Nat × Nat)
  | [] => []
  | h :: t => consolidateAux h (h + 1) t

/-- The hours appended to `role_hours[r]` for one `(employee, day)`: one copy
of each set hour per occurrence of `r` in `emp.roles` (the Python loop
appends once per role-list entry). -/
def role_hours_for (scen : BusinessScenario) (a : Assignment) (e : Employee) (d : Nat)
    (r : String) : List Nat :=
  (operating_hours scen).flatMap fun h =>
    (e.roles.filter fun rid => rid = r && a e.id d h rid).map fun _ => h

/-- `_extract_shift_assignments` for one employee-day: per distinct role (the
`role_hours` dict keys; for duplicate-free role lists `dedup` is that key
set), sort the stored hours and emit the consolidated runs. -/
def extract_day (scen : BusinessScenario) (a : Assignment) (e : Employee) (d : Nat) :
    List ShiftAssignment :=
  e.roles.dedup.flatMap fun r =>
    (consolidate (sortNat (role_hours_for scen a e d r))).map fun p =>
      { employeeId := e.id, employeeName := e.name, day := d,
        startHour := p.1, endHour := p.2, roleId := r }

/-- `AdvancedScheduleSolver._extract_shift_assignments`. -/
def extract_shift_assignments (scen : BusinessScenario) (a : Assignment) :
    List ShiftAssignment :=
  scen.employees.flatMap fun e => scen.daysOpen.flatMap fun d => extract_day scen a e d

/-- One entry of `metrics.unfilled_slots` (the display-only `role_name` is
omitted). -/
structure UnfilledSlot where
  day : Nat
  hour : Nat
  roleId : String
  needed : Nat
  filled : Nat
  required : Nat
deriving DecidableEq, Repr

/-- The coverage block of `models.ScheduleMetrics` (cost, fairness and
preference fields are not observed by the claims). -/
structure ScheduleMetrics where
  totalSlotsRequired : Nat
  totalSlotsFilled : Nat
  unfilledSlots : List UnfilledSlot
  totalHoursStillNeeded : Nat
deriving DecidableEq, Repr

/-- One iteration of the coverage loop of
`AdvancedScheduleSolver._calculate_metrics`: skip out-of-window requirements,
accumulate `min_staff` into the required total and `min(filled, min_staff)`
into the filled total, and append an unfilled entry whenever
`filled < min_staff`. -/
def metricsStep (scen : BusinessScenario) (a : Assignment) (m : ScheduleMetrics)
    (req : CoverageRequirement) : ScheduleMetrics :=
  if inWindow scen req then
    let filled := filledCount scen a req
    let m1 : ScheduleMetrics :=
      { m with totalSlotsRequired := m.totalSlotsRequired + req.minStaff,
               totalSlotsFilled := m.totalSlotsFilled + min filled req.minStaff }
    if filled < req.minStaff then
      { m1 with
        unfilledSlots := m1.unfilledSlots ++
          [{ day := req.day, hour := req.hour, roleId := req.roleId,
             needed := req.minStaff - filled, filled := filled,
             required := req.minStaff }],
        totalHoursStillNeeded := m1.totalHoursStillNeeded + (req.minStaff - filled) }
    else m1
  else m

/-- The coverage part of `AdvancedScheduleSolver._calculate_metrics`: the
loop over the requirement list, started from the zeroed metrics. -/
def calculate_metrics (scen : BusinessScenario) (a : Assignment) : ScheduleMetrics :=
  scen.coverageRequirements.foldl (metricsStep scen a)
    { totalSlotsRequired := 0, totalSlotsFilled := 0, unfilledSlots := [],
      totalHoursStillNeeded := 0 }

/-- The unfilled entry the metrics loop appends for one requirement, when it
appends one. -/
def unfilledEntry (scen : BusinessScenario) (a : Assignment) (req : CoverageRequirement) :
    Option UnfilledSlot :=
  if inWindow scen req then
    if filledCount scen a req < req.minStaff then
      some { day := req.day, hour := req.hour, roleId := req.roleId,
             needed := req.minStaff - filledCount scen a req,
             filled := filledCount scen a req, required := req.minStaff }
    else none
  else none

/-- The `max_consec / current_consec` loop of `solve`, over a list of
`works_day` values. -/
def consecAux : List Bool → Nat → Nat → Nat
  | [], maxc, _ => maxc
  | b :: t, maxc, cur =>
      if b then consecAux t (max maxc (cur + 1)) (cur + 1) else consecAux t maxc 0

/-- `consecutive_days[emp]` as `solve` computes it: the counting loop over
`sorted(days_open)`, reading the `works_day` values. -/
def consecutive_days_of (scen : BusinessScenario) (a : Assignment) (e : Employee) : Nat :=
  consecAux ((sortNat scen.daysOpen).map fun d => worksDay scen a e d) 0 0

/-- Length of the leading run of `true` values. -/
def leadRun : List Bool → Nat
  | [] => 0
  | b :: t => if b then leadRun t + 1 else 0

/-- Length of the longest contiguous run of `true` values. -/
def longestRun : List Bool → Nat
  | [] => 0
  | b :: t => max (leadRun (b :: t)) (longestRun t)

/-- The claim's reading of `consecutive_days`: the longest run of consecutive
day indices `0..6` (no wrap) that are open and worked, a closed day breaking
the run. -/
def claimConsecutiveDays (scen : BusinessScenario) (a : Assignment) (e : Employee) : Nat :=
  longestRun ((List.range 7).map fun d => decide (d ∈ scen.daysOpen) && worksDay scen a e d)

/-- CP-SAT status as observed by `solve`. -/
inductive CpStatus where
  | optimal
  | feasible
  | infeasible
  | modelInvalid
  | unknown
deriving DecidableEq, Repr

/-- `status == cp_model.OPTIMAL or status == cp_model.FEASIBLE`. -/
def statusSuccess : CpStatus → Bool
  | CpStatus.optimal => true
  | CpStatus.feasible => true
  | _ => false

/-- What the CP backend returns: a status and the extracted variable values
(meaningful only on success). -/
structure SolveOutcome where
  status : CpStatus
  sol : Assignment

/-- The fields of `models.Schedule` the claims observe.  The freshly
constructed `Schedule()` defaults are `is_feasible = False`,
`solution_index = 0`, empty lists and zeroed metrics. -/
structure Schedule where
  assignments : List ShiftAssignment
  consecutiveDays : List (String × Nat)
  metrics : ScheduleMetrics
  isFeasible : Bool
  solutionIndex : Nat

/-- `AdvancedScheduleSolver.solve` as a transition on the stored
`_previous_solutions` list.  The model is built excluding the stored
solutions iff `find_alternative`; the backend's answer is the `out`
argument.  On success the raw solution is appended unconditionally and
`solution_index` is the new list length; on failure the schedule keeps its
constructor defaults (so `metrics` — including `unfilled_slots` — stays
empty) and the list is untouched. -/
def solveStep (scen : BusinessScenario) (prev : List Assignment)
    (_findAlternative : Bool) (out : SolveOutcome) : Schedule × List Assignment :=
  if statusSuccess out.status then
    let prevAfter := prev ++ [out.sol]
    ({ assignments := extract_shift_assignments scen out.sol,
       consecutiveDays := scen.employees.map fun e =>
         (e.id, consecutive_days_of scen out.sol e),
       metrics := calculate_metrics scen out.sol,
       isFeasible := true,
       solutionIndex := prevAfter.length }, prevAfter)
  else
    ({ assignments := [], consecutiveDays := [],
       metrics := { totalSlotsRequired := 0, totalSlotsFilled := 0, unfilledSlots := [],
                    totalHoursStillNeeded := 0 },
       isFeasible := false, solutionIndex := 0 }, prev)

/-- The set of operating hours an employee works in a role on a day ("hours
whose shift variable is 1"), in increasing order. -/
def workedHours (scen : BusinessScenario) (a : Assignment) (e : Employee) (d : Nat)
    (r : String) : List Nat :=
  (operating_hours scen).filter fun h => a e.id d h r

/-! ## Concrete scenarios used by counterexamples and witnesses -/

/-- A single schedulable employee with no weekly minimum. -/
def demoEmployee : Employee :=
  { id := "e1", name := "Dana", isFullTime := true, minHours := 0, maxHours := 40,
    roles := ["r"], availability := [⟨0, 9⟩, ⟨0, 10⟩], preferences := [], timeOff := [],
    needsSupervision := false, canSupervise := false, overtimeAllowed := false }

/-- An in-window requirement demanding one `"r"` at Monday 9. -/
def demoRequirement : CoverageRequirement :=
  { day := 0, hour := 9, roleId := "r", minStaff := 1, maxStaff := 99, isPeak := false }

/-- Open Monday, hours 9-11, one employee, one requirement. -/
def demoScenario : BusinessScenario :=
  { startHour := 9, endHour := 11, daysOpen := [0], employees := [demoEmployee],
    coverageRequirements := [demoRequirement], peakPeriods := [], shiftTemplates := [] }

/-- The solver's default policy knobs. -/
def demoConfig : SolverConfig :=
  { minShiftHours := 2, maxHoursPerDay := 8, maxSplitsPerDay := 2,
    maxSplitShiftsPerWeek := 2, maxDaysFt := 5, maxDaysFtMode := DayCapMode.required,
    maxDaysPt := 3, maxDaysPtMode := DayCapMode.required }

/-- The all-zero raw assignment. -/
def zeroAssignment : Assignment := fun _ _ _ _ => false

/-- The all-one raw assignment. -/
def fullAssignment : Assignment := fun _ _ _ _ => true

/-- An employee available on Monday and Wednesday. -/
def gapEmployee : Employee :=
  { id := "e1", name := "Robin", isFullTime := true, minHours := 0, maxHours := 40,
    roles := ["r"], availability := [⟨0, 9⟩, ⟨0, 10⟩, ⟨2, 9⟩, ⟨2, 10⟩], preferences := [],
    timeOff := [], needsSupervision := false, canSupervise := false,
    overtimeAllowed := false }

/-- Open Monday and Wednesday (Tuesday closed), hours 9-11. -/
def gapScenario : BusinessScenario :=
  { startHour := 9, endHour := 11, daysOpen := [0, 2], employees := [gapEmployee],
    coverageRequirements := [], peakPeriods := [], shiftTemplates := [] }

/-- A backend answer reporting infeasibility. -/
def infeasibleOutcome : SolveOutcome :=
  { status := CpStatus.infeasible, sol := zeroAssignment }

/-- A successful backend answer carrying the all-zero assignment. -/
def optimalZeroOutcome : SolveOutcome :=
  { status := CpStatus.optimal, sol := zeroAssignment }

/-- A successful backend answer carrying the all-one assignment. -/
def optimalFullOutcome : SolveOutcome :=
  { status := CpStatus.optimal, sol := fullAssignment }

/-- An in-window requirement for role `"z"`, which no employee holds. -/
def orphanRequirement : CoverageRequirement :=
  { day := 0, hour := 9, roleId := "z", minStaff := 2, maxStaff := 5, isPeak := false }

/-- `demoScenario` with an additional requirement no employee can fill. -/
def orphanScenario : BusinessScenario :=
  { demoScenario with coverageRequirements := [demoRequirement, orphanRequirement] }

/-- C8: time off dominates availability.  After `add_time_off(day)` with the
hour bounds omitted, `is_available(day, h)` is false for every hour `h < 24`;
and in general any slot in `time_off` is unavailable even when it is in
`availability`. -/
theorem add_time_off_blocks_availability :
    (∀ (e : Employee) (d h : Nat), h < 24 →
      (e.add_time_off d none).is_available d h = false) ∧
    (∀ (e : Employee) (d h : Nat), (⟨d, h⟩ : TimeSlot) ∈ e.timeOff →
      e.is_available d h = false) := by
  constructor
  · intro e d h hh
    have hmem : (⟨d, h⟩ : TimeSlot) ∈ (e.add_time_off d none).timeOff := by
      show (⟨d, h⟩ : TimeSlot) ∈ e.timeOff ++ (List.range 24).map (fun h => ⟨d, h⟩)
      exact List.mem_append_right _ (List.mem_map.2 ⟨h, List.mem_range.2 hh, rfl⟩)
    unfold Employee.is_available
    rw [decide_eq_true hmem]
    simp
  · intro e d h hmem
    unfold Employee.is_available
    rw [decide_eq_true hmem]
    simp

/-- Witness for C8 at a concrete employee: hour 13 of day 2 is blocked after a
whole-day time-off request, although it is in the availability set. -/
theorem add_time_off_blocks_availability_witness :
    (13 < 24 ∧
      (Employee.is_available
        (Employee.add_time_off
          ⟨"emp1", "Alice", true, 0, 40, ["r"], [⟨2, 13⟩], [], [], false, false, false⟩
          2 none) 2 13) = false) ∧
    ((⟨2, 13⟩ : TimeSlot) ∈
        (⟨"emp1", "Alice", true, 0, 40, ["r"], [⟨2, 13⟩], [], [⟨2, 13⟩], false, false,
          false⟩ : Employee).timeOff ∧
      (Employee.is_available
        (⟨"emp1", "Alice", true, 0, 40, ["r"], [⟨2, 13⟩], [], [⟨2, 13⟩], false, false,
          false⟩ : Employee) 2 13) = false) :=
  ⟨⟨by decide,
      add_time_off_blocks_availability.1
        ⟨"emp1", "Alice", true, 0, 40, ["r"], [⟨2, 13⟩], [], [], false, false, false⟩
        2 13 (by decide)⟩,
    ⟨by decide,
      add_time_off_blocks_availability.2
        ⟨"emp1", "Alice", true, 0, 40, ["r"], [⟨2, 13⟩], [], [⟨2, 13⟩], false, false,
          false⟩ 2 13 (by decide)⟩⟩

theorem isEmpty_false_of_ne_nil {α : Type} {l : List α} (h : l ≠ []) :
    l.isEmpty = false := by
  cases l with
  | nil => exact absurd rfl h
  | cons a t => rfl

/-- Counterexample to C1: the model built for `demoScenario` admits the
all-zero assignment although the scenario's single compiled requirement is in
the window, has an eligible employee and demands `min_staff = 1`: the
coverage minimum is not a hard constraint and a solve can succeed while
violating it. -/
theorem coverage_minimum_not_hard :
    demoRequirement ∈ demoScenario.coverageRequirements ∧
    inWindow demoScenario demoRequirement = true ∧
    get_employees_for_role demoScenario demoRequirement.roleId ≠ [] ∧
    modelAdmits demoScenario demoConfig [] zeroAssignment = true ∧
    filledCount demoScenario zeroAssignment demoRequirement <
      demoRequirement.minStaff :=
  ⟨by decide, by decide, by decide, by decide, by decide⟩

/-- C1 (amended): the coverage minimum is a soft constraint.  For every
compiled in-window requirement with at least one eligible employee, an
assignment admitted by the built model satisfies only the hard maximum
`S ≤ max_staff`; the minimum instead feeds the objective, whose
`coverage_met` term earns `WEIGHT_COVERAGE = 1000` exactly when
`S ≥ min_staff` and 0 otherwise, so assignments with `S < min_staff` remain
admissible and merely score lower. -/
theorem coverage_minimum_soft (scen : BusinessScenario) (cfg : SolverConfig)
    (prev : List Assignment) (a : Assignment) (req : CoverageRequirement)
    (hreq : req ∈ scen.coverageRequirements) (hwin : inWindow scen req = true)
    (helig : get_employees_for_role scen req.roleId ≠ [])
    (hadm : modelAdmits scen cfg prev a = true) :
    filledCount scen a req ≤ req.maxStaff ∧
    coverageReqObjTerm scen a req =
      (if req.minStaff ≤ filledCount scen a req then WEIGHT_COVERAGE else 0) := by
  constructor
  · unfold modelAdmits at hadm
    simp only [Bool.and_eq_true] at hadm
    have hcov : coverageOk scen a = true := hadm.1.1.1.1.1.1.1.2
    unfold coverageOk at hcov
    rw [List.all_eq_true] at hcov
    have hc := hcov req hreq
    unfold coverageReqConstraint at hc
    rw [hwin, isEmpty_false_of_ne_nil helig] at hc
    simpa using hc
  · unfold coverageReqObjTerm
    rw [hwin, isEmpty_false_of_ne_nil helig]
    simp

/-- Witness for C1 (amended) at `demoScenario` with the admitted all-zero
assignment: the hard maximum holds and the objective term is 0 because
`S = 0 < min_staff`. -/
theorem coverage_minimum_soft_witness :
    filledCount demoScenario zeroAssignment demoRequirement ≤
      demoRequirement.maxStaff ∧
    coverageReqObjTerm demoScenario zeroAssignment demoRequirement =
      (if demoRequirement.minStaff ≤
          filledCount demoScenario zeroAssignment demoRequirement
       then WEIGHT_COVERAGE else 0) :=
  coverage_minimum_soft demoScenario demoConfig [] zeroAssignment demoRequirement
    (by decide) (by decide) (by decide) (by decide)

/-- C4: weekly hours are a hard constraint.  For every employee with at
least one role in a scenario with at least one open day and operating hour,
every assignment admitted by the built model has
`min_hours ≤ Σ shift[e,*,*,*] ≤ effective_max`, where `effective_max` is
`max_hours` when overtime is allowed and `min(40, max_hours)` otherwise. -/
theorem weekly_hours_constraint (scen : BusinessScenario) (cfg : SolverConfig)
    (prev : List Assignment) (a : Assignment) (e : Employee)
    (he : e ∈ scen.employees) (hroles : e.roles ≠ []) (hdays : scen.daysOpen ≠ [])
    (hhours : operating_hours scen ≠ [])
    (hadm : modelAdmits scen cfg prev a = true) :
    e.minHours ≤ weeklyHours scen a e ∧ weeklyHours scen a e ≤ effectiveMaxHours e := by
  unfold modelAdmits at hadm
  simp only [Bool.and_eq_true] at hadm
  have hw : weeklyHoursOk scen a = true := hadm.1.1.1.1.1.2
  unfold weeklyHoursOk at hw
  rw [List.all_eq_true] at hw
  have hthis := hw e he
  rw [isEmpty_false_of_ne_nil hroles, isEmpty_false_of_ne_nil hdays,
    isEmpty_false_of_ne_nil hhours] at hthis
  simpa using hthis

/-- Witness for C4 at `demoScenario` with the admitted all-zero assignment:
`0 = min_hours ≤ 0 ≤ effective_max = 40`. -/
theorem weekly_hours_constraint_witness :
    demoEmployee.minHours ≤ weeklyHours demoScenario zeroAssignment demoEmployee ∧
    weeklyHours demoScenario zeroAssignment demoEmployee ≤
      effectiveMaxHours demoEmployee :=
  weekly_hours_constraint demoScenario demoConfig [] zeroAssignment demoEmployee
    (by decide) (by decide) (by decide) (by decide) (by decide)

theorem metrics_foldl_spec (scen : BusinessScenario) (a : Assignment)
    (l : List CoverageRequirement) (m0 : ScheduleMetrics) :
    l.foldl (metricsStep scen a) m0 =
      { totalSlotsRequired := m0.totalSlotsRequired +
          ((l.filter (inWindow scen)).map CoverageRequirement.minStaff).sum,
        totalSlotsFilled := m0.totalSlotsFilled +
          ((l.filter (inWindow scen)).map fun req =>
            min (filledCount scen a req) req.minStaff).sum,
        unfilledSlots := m0.unfilledSlots ++ l.filterMap (unfilledEntry scen a),
        totalHoursStillNeeded := m0.totalHoursStillNeeded +
          ((l.filter (inWindow scen)).map fun req =>
            req.minStaff - filledCount scen a req).sum } := by
  induction l generalizing m0 with
  | nil => simp
  | cons req t ih =>
      rw [List.foldl_cons, ih]
      by_cases hwin : inWindow scen req = true
      · by_cases hlt : filledCount scen a req < req.minStaff
        · simp [metricsStep, unfilledEntry, hwin, hlt, List.filter_cons,
            List.filterMap_cons, Nat.add_assoc]
        · have h0 : req.minStaff - filledCount scen a req = 0 :=
            Nat.sub_eq_zero_of_le (Nat.le_of_not_lt hlt)
          simp [metricsStep, unfilledEntry, hwin, hlt, List.filter_cons,
            List.filterMap_cons, Nat.add_assoc, h0]
      · simp [metricsStep, unfilledEntry, hwin, List.filter_cons, List.filterMap_cons]

/-- C10: a compiled in-window requirement whose role no employee holds
contributes no constraint to the built model (its coverage check is
identically true, so it can never cause infeasibility and caps nothing) and
no objective term (no `coverage_met` indicator is created for it); when its
minimum is positive the gap surfaces only as a fully unfilled
`unfilled_slots` entry (`filled = 0`, `needed = min_staff`). -/
theorem unfillable_requirement_is_inert (scen : BusinessScenario)
    (req : CoverageRequirement) (hreq : req ∈ scen.coverageRequirements)
    (hwin : inWindow scen req = true)
    (helig : get_employees_for_role scen req.roleId = []) :
    (∀ a : Assignment, coverageReqConstraint scen a req = true) ∧
    (∀ a : Assignment, coverageReqObjTerm scen a req = 0) ∧
    (0 < req.minStaff → ∀ a : Assignment,
      ({ day := req.day, hour := req.hour, roleId := req.roleId,
         needed := req.minStaff, filled := 0, required := req.minStaff } :
          UnfilledSlot) ∈ (calculate_metrics scen a).unfilledSlots) := by
  have h0 : ∀ a : Assignment, filledCount scen a req = 0 := by
    intro a
    unfold filledCount
    rw [helig]
    rfl
  refine ⟨?_, ?_, ?_⟩
  · intro a
    unfold coverageReqConstraint
    rw [hwin, helig]
    simp
  · intro a
    unfold coverageReqObjTerm
    rw [hwin, helig]
    simp
  · intro hmin a
    unfold calculate_metrics
    rw [metrics_foldl_spec]
    apply List.mem_filterMap.2
    refine ⟨req, hreq, ?_⟩
    unfold unfilledEntry
    rw [hwin, h0 a]
    simp [hmin]

/-- Witness for C10 on `orphanScenario`, whose `"z"` requirement no employee
can fill: its constraint is vacuous, its objective term 0, and the metrics of
the (fully staffed) assignment still report it entirely unfilled. -/
theorem unfillable_requirement_is_inert_witness :
    coverageReqConstraint orphanScenario fullAssignment orphanRequirement = true ∧
    coverageReqObjTerm orphanScenario fullAssignment orphanRequirement = 0 ∧
    ({ day := orphanRequirement.day, hour := orphanRequirement.hour,
       roleId := orphanRequirement.roleId, needed := orphanRequirement.minStaff,
       filled := 0, required := orphanRequirement.minStaff } : UnfilledSlot) ∈
      (calculate_metrics orphanScenario fullAssignment).unfilledSlots :=
  ⟨(unfillable_requirement_is_inert orphanScenario orphanRequirement (by decide)
      (by decide) (by decide)).1 fullAssignment,
   (unfillable_requirement_is_inert orphanScenario orphanRequirement (by decide)
      (by decide) (by decide)).2.1 fullAssignment,
   (unfillable_requirement_is_inert orphanScenario orphanRequirement (by decide)
      (by decide) (by decide)).2.2 (by decide) fullAssignment⟩

/-- C6: for every successful solve, the returned metrics satisfy
`total_slots_required = Σ min_staff` and
`total_slots_filled = Σ min(filled, min_staff)` over the compiled in-window
requirements; the per-requirement cap means staffing above `min_staff` never
raises the filled total, which never exceeds the required total. -/
theorem metrics_slot_totals (scen : BusinessScenario) (prev : List Assignment)
    (fa : Bool) (out : SolveOutcome) (hs : statusSuccess out.status = true) :
    ((solveStep scen prev fa out).1.metrics.totalSlotsRequired =
      ((scen.coverageRequirements.filter (inWindow scen)).map
        CoverageRequirement.minStaff).sum) ∧
    ((solveStep scen prev fa out).1.metrics.totalSlotsFilled =
      ((scen.coverageRequirements.filter (inWindow scen)).map fun req =>
        min (filledCount scen out.sol req) req.minStaff).sum) ∧
    (solveStep scen prev fa out).1.metrics.totalSlotsFilled ≤
      (solveStep scen prev fa out).1.metrics.totalSlotsRequired := by
  have hm : (solveStep scen prev fa out).1.metrics = calculate_metrics scen out.sol := by
    unfold solveStep
    rw [if_pos hs]
  rw [hm]
  unfold calculate_metrics
  rw [metrics_foldl_spec]
  refine ⟨by simp, by simp, ?_⟩
  simp only [Nat.zero_add]
  exact List.sum_le_sum fun req _ => Nat.min_le_right _ _

/-- Witness for C6 on `demoScenario` with a successful all-zero solve. -/
theorem metrics_slot_totals_witness :
    ((solveStep demoScenario [] false optimalZeroOutcome).1.metrics.totalSlotsRequired =
      ((demoScenario.coverageRequirements.filter (inWindow demoScenario)).map
        CoverageRequirement.minStaff).sum) ∧
    ((solveStep demoScenario [] false optimalZeroOutcome).1.metrics.totalSlotsFilled =
      ((demoScenario.coverageRequirements.filter (inWindow demoScenario)).map fun req =>
        min (filledCount demoScenario optimalZeroOutcome.sol req) req.minStaff).sum) ∧
    (solveStep demoScenario [] false optimalZeroOutcome).1.metrics.totalSlotsFilled ≤
      (solveStep demoScenario [] false optimalZeroOutcome).1.metrics.totalSlotsRequired :=
  metrics_slot_totals demoScenario [] false optimalZeroOutcome (by decide)

theorem leadRun_le_longestRun (l : List Bool) : leadRun l ≤ longestRun l := by
  cases l with
  | nil => exact Nat.le_refl 0
  | cons b t => exact Nat.le_max_left _ _

theorem consecAux_eq (l : List Bool) (maxc cur : Nat) (h : cur ≤ maxc) :
    consecAux l maxc cur = max maxc (max (cur + leadRun l) (longestRun l)) := by
  induction l generalizing maxc cur with
  | nil =>
      simp only [consecAux, leadRun, longestRun]
      omega
  | cons b t ih =>
      cases b with
      | true =>
          rw [show consecAux (true :: t) maxc cur
              = consecAux t (max maxc (cur + 1)) (cur + 1) from rfl,
            ih _ _ (Nat.le_max_right _ _)]
          have hlr := leadRun_le_longestRun t
          simp [leadRun, longestRun]
          omega
      | false =>
          rw [show consecAux (false :: t) maxc cur = consecAux t maxc 0 from rfl,
            ih _ _ (Nat.zero_le _)]
          have hlr := leadRun_le_longestRun t
          simp [leadRun, longestRun]
          omega

/-- Counterexample to C7: with `days_open = [0, 2]` (Tuesday closed) and an
admitted assignment working both open days, `solve` reports
`consecutive_days = 2`, although the longest run of consecutive day indices
is 1 — a closed day does not break a run in the code. -/
theorem consecutive_days_counterexample :
    modelAdmits gapScenario demoConfig [] fullAssignment = true ∧
    (solveStep gapScenario [] false optimalFullOutcome).1.consecutiveDays =
      [("e1", 2)] ∧
    claimConsecutiveDays gapScenario fullAssignment gapEmployee = 1 :=
  ⟨by decide, by decide, by decide⟩

/-- C7 (amended): `consecutive_days[e]` equals the length of the longest run
of consecutive `works_day = 1` entries along `sorted(days_open)` — adjacency
is positional in the sorted open-day list (and the week does not wrap), so a
closed calendar day lying between two open days does not break a run. -/
theorem consecutive_days_eq_longest_run (scen : BusinessScenario) (a : Assignment)
    (e : Employee) :
    consecutive_days_of scen a e =
      longestRun ((sortNat scen.daysOpen).map fun d => worksDay scen a e d) := by
  unfold consecutive_days_of
  rw [consecAux_eq _ _ _ (Nat.le_refl 0)]
  have := leadRun_le_longestRun ((sortNat scen.daysOpen).map fun d => worksDay scen a e d)
  omega

/-- Counterexample to C2: on an infeasible status `solve` returns the freshly
constructed `Schedule` whose metrics keep their defaults, so
`unfilled_slots` is empty even though `demoScenario` has one compiled
in-window requirement (the claim demands one entry per requirement). -/
theorem infeasible_unfilled_slots_counterexample :
    (solveStep demoScenario [] false infeasibleOutcome).1.metrics.unfilledSlots = [] ∧
    (demoScenario.coverageRequirements.filter (inWindow demoScenario)).length = 1 :=
  ⟨by decide, by decide⟩

/-- C2 (amended): whenever the backend status is neither optimal nor
feasible, `solve` returns a `Schedule` with `is_feasible = false`, empty
`assignments`, `solution_index = 0` and default metrics — `unfilled_slots`
stays empty rather than being populated from the compiled requirements — and
the stored solution list is unchanged. -/
theorem infeasible_returns_default_schedule (scen : BusinessScenario)
    (prev : List Assignment) (fa : Bool) (out : SolveOutcome)
    (hs : statusSuccess out.status = false) :
    ((solveStep scen prev fa out).1.isFeasible = false) ∧
    ((solveStep scen prev fa out).1.assignments = []) ∧
    ((solveStep scen prev fa out).1.solutionIndex = 0) ∧
    ((solveStep scen prev fa out).1.metrics.unfilledSlots = []) ∧
    ((solveStep scen prev fa out).2 = prev) := by
  unfold solveStep
  rw [if_neg (by simp [hs])]
  exact ⟨rfl, rfl, rfl, rfl, rfl⟩

/-- Witness for C2 (amended) on `demoScenario` with an infeasible backend
answer. -/
theorem infeasible_returns_default_schedule_witness :
    ((solveStep demoScenario [] false infeasibleOutcome).1.isFeasible = false) ∧
    ((solveStep demoScenario [] false infeasibleOutcome).1.assignments = []) ∧
    ((solveStep demoScenario [] false infeasibleOutcome).1.solutionIndex = 0) ∧
    ((solveStep demoScenario [] false infeasibleOutcome).1.metrics.unfilledSlots = []) ∧
    ((solveStep demoScenario [] false infeasibleOutcome).2 = []) :=
  infeasible_returns_default_schedule demoScenario [] false infeasibleOutcome (by decide)

/-- C9: exclusion-list bookkeeping of `solve`.  A solve whose status is
neither optimal nor feasible leaves the stored list unchanged and returns
`solution_index = 0`; a successful solve appends its raw solution
unconditionally (whatever `find_alternative` is) and returns the new list
length, so two successive successful solves return strictly increasing
indices. -/
theorem solution_list_bookkeeping (scen : BusinessScenario) (prev : List Assignment)
    (fa fa2 : Bool) (out out2 : SolveOutcome) :
    (statusSuccess out.status = false →
      (solveStep scen prev fa out).2 = prev ∧
      (solveStep scen prev fa out).1.solutionIndex = 0) ∧
    (statusSuccess out.status = true →
      (solveStep scen prev fa out).2 = prev ++ [out.sol] ∧
      (solveStep scen prev fa out).1.solutionIndex = prev.length + 1) ∧
    (statusSuccess out.status = true → statusSuccess out2.status = true →
      (solveStep scen (solveStep scen prev fa out).2 fa2 out2).1.solutionIndex =
        (solveStep scen prev fa out).1.solutionIndex + 1 ∧
      (solveStep scen prev fa out).1.solutionIndex <
        (solveStep scen (solveStep scen prev fa out).2 fa2 out2).1.solutionIndex) := by
  refine ⟨?_, ?_, ?_⟩
  · intro hs
    unfold solveStep
    rw [if_neg (by simp [hs])]
    exact ⟨rfl, rfl⟩
  · intro hs
    unfold solveStep
    rw [if_pos hs]
    exact ⟨rfl, by simp⟩
  · intro hs hs2
    unfold solveStep
    rw [if_pos hs, if_pos hs2]
    simp

/-- Witness for C9: two successive successful solves from an empty stored
list return indices 1 and 2. -/
theorem solution_list_bookkeeping_witness :
    ((solveStep demoScenario [] false optimalZeroOutcome).2 =
      [] ++ [optimalZeroOutcome.sol] ∧
     (solveStep demoScenario [] false optimalZeroOutcome).1.solutionIndex =
      List.length ([] : List Assignment) + 1) ∧
    ((solveStep demoScenario (solveStep demoScenario [] false optimalZeroOutcome).2
        true optimalFullOutcome).1.solutionIndex =
      (solveStep demoScenario [] false optimalZeroOutcome).1.solutionIndex + 1 ∧
     (solveStep demoScenario [] false optimalZeroOutcome).1.solutionIndex <
      (solveStep demoScenario (solveStep demoScenario [] false optimalZeroOutcome).2
        true optimalFullOutcome).1.solutionIndex) :=
  ⟨(solution_list_bookkeeping demoScenario [] false true optimalZeroOutcome
      optimalFullOutcome).2.1 (by decide),
   (solution_list_bookkeeping demoScenario [] false true optimalZeroOutcome
      optimalFullOutcome).2.2 (by decide) (by decide)⟩

theorem consolidateAux_spec (l : List Nat) : ∀ s e : Nat, s < e →
    l.Pairwise (· < ·) → (∀ x ∈ l, e ≤ x) →
    ((∀ p ∈ consolidateAux s e l, p.1 < p.2) ∧
     (∀ k : Nat, (∃ p ∈ consolidateAux s e l, p.1 ≤ k ∧ k < p.2) ↔
        ((s ≤ k ∧ k < e) ∨ k ∈ l)) ∧
     (∀ p ∈ consolidateAux s e l, ¬(s ≤ p.2 ∧ p.2 < e) ∧ p.2 ∉ l) ∧
     (∀ p ∈ consolidateAux s e l,
        p.1 = s ∨ (e < p.1 ∧ p.1 - 1 ∉ l ∧ ¬(s ≤ p.1 - 1 ∧ p.1 - 1 < e))) ∧
     (consolidateAux s e l).Pairwise (fun p q => p.2 < q.1) ∧
     (∀ p ∈ consolidateAux s e l, s ≤ p.1)) := by
  induction l with
  | nil =>
      intro s e hse _ _
      refine ⟨?_, ?_, ?_, ?_, ?_, ?_⟩
      all_goals simp [consolidateAux]
      all_goals omega
  | cons h t ih =>
      intro s e hse hpw hge
      have hpw_t : t.Pairwise (· < ·) := (List.pairwise_cons.1 hpw).2
      have hht : ∀ x ∈ t, h < x := (List.pairwise_cons.1 hpw).1
      have hhe : e ≤ h := hge h (List.mem_cons_self h t)
      by_cases heq : h = e
      · subst heq
        rw [show consolidateAux s h (h :: t) = consolidateAux s (h + 1) t from by
          simp [consolidateAux]]
        obtain ⟨ia, ib, ic, id_, ie_, if_⟩ :=
          ih s (h + 1) (by omega) hpw_t (fun x hx => by have := hht x hx; omega)
        refine ⟨ia, ?_, ?_, ?_, ie_, if_⟩
        · intro k
          rw [ib k]
          constructor
          · rintro (hk | hk)
            · by_cases hke : k < h
              · exact Or.inl ⟨hk.1, hke⟩
              · have hkh : k = h := by omega
                exact Or.inr (hkh ▸ List.mem_cons_self h t)
            · exact Or.inr (List.mem_cons_of_mem _ hk)
          · rintro (hk | hk)
            · exact Or.inl ⟨hk.1, by omega⟩
            · rcases List.mem_cons.1 hk with rfl | hk
              · exact Or.inl ⟨by omega, by omega⟩
              · exact Or.inr hk
        · intro p hp
          obtain ⟨ic1, ic2⟩ := ic p hp
          refine ⟨fun hc => ic1 ⟨hc.1, by omega⟩, ?_⟩
          intro hmem
          rcases List.mem_cons.1 hmem with hpe | hpt
          · exact ic1 ⟨by omega, by omega⟩
          · exact ic2 hpt
        · intro p hp
          rcases id_ p hp with hps | ⟨h1, h2, h3⟩
          · exact Or.inl hps
          · refine Or.inr ⟨by omega, ?_, by omega⟩
            intro hmem
            rcases List.mem_cons.1 hmem with hpe | hpt
            · omega
            · exact h2 hpt
      · have heh : e < h := by omega
        rw [show consolidateAux s e (h :: t) = (s, e) :: consolidateAux h (h + 1) t from by
          simp [consolidateAux, heq]]
        obtain ⟨ia, ib, ic, id_, ie_, if_⟩ :=
          ih h (h + 1) (by omega) hpw_t (fun x hx => by have := hht x hx; omega)
        refine ⟨?_, ?_, ?_, ?_, ?_, ?_⟩
        · intro p hp
          rcases List.mem_cons.1 hp with rfl | hp
          · exact hse
          · exact ia p hp
        · intro k
          constructor
          · rintro ⟨p, hp, hk1, hk2⟩
            rcases List.mem_cons.1 hp with rfl | hp
            · exact Or.inl ⟨hk1, hk2⟩
            · rcases (ib k).1 ⟨p, hp, hk1, hk2⟩ with hk | hk
              · have hkh : k = h := by omega
                exact Or.inr (hkh ▸ List.mem_cons_self h t)
              · exact Or.inr (List.mem_cons_of_mem _ hk)
          · rintro (hk | hk)
            · exact ⟨(s, e), List.mem_cons_self _ _, hk.1, hk.2⟩
            · rcases List.mem_cons.1 hk with rfl | hk
              · obtain ⟨p, hp, hpk⟩ := (ib k).2 (Or.inl ⟨Nat.le_refl k, by omega⟩)
                exact ⟨p, List.mem_cons_of_mem _ hp, hpk⟩
              · obtain ⟨p, hp, hpk⟩ := (ib k).2 (Or.inr hk)
                exact ⟨p, List.mem_cons_of_mem _ hp, hpk⟩
        · intro p hp
          rcases List.mem_cons.1 hp with rfl | hp
          · refine ⟨by omega, ?_⟩
            intro hmem
            rcases List.mem_cons.1 hmem with heh2 | hmem
            · omega
            · exact absurd (hht _ hmem) (by omega)
          · obtain ⟨ic1, ic2⟩ := ic p hp
            have hp1 : h ≤ p.1 := if_ p hp
            have hp12 : p.1 < p.2 := ia p hp
            refine ⟨by omega, ?_⟩
            intro hmem
            rcases List.mem_cons.1 hmem with hph | hmem
            · omega
            · exact ic2 hmem
        · intro p hp
          rcases List.mem_cons.1 hp with rfl | hp
          · exact Or.inl rfl
          · rcases id_ p hp with hph | ⟨h1, h2, h3⟩
            · refine Or.inr ⟨by omega, ?_, by omega⟩
              intro hmem
              rcases List.mem_cons.1 hmem with hm | hm
              · omega
              · have := hht _ hm
                omega
            · refine Or.inr ⟨by omega, ?_, by omega⟩
              intro hmem
              rcases List.mem_cons.1 hmem with hm | hm
              · omega
              · exact h2 hm
        · rw [List.pairwise_cons]
          refine ⟨?_, ie_⟩
          intro q hq
          exact lt_of_lt_of_le heh (if_ q hq)
        · intro p hp
          rcases List.mem_cons.1 hp with rfl | hp
          · exact Nat.le_refl s
          · exact le_trans (by omega) (if_ p hp)

theorem countP_eq_one_of_pairwise {α : Type} (L : List α) (Q : α → Bool)
    (R : α → α → Prop) (hpw : L.Pairwise R)
    (hcontra : ∀ p q, R p q → Q p = true → Q q = true → False)
    (hex : ∃ p ∈ L, Q p = true) : L.countP Q = 1 := by
  induction L with
  | nil =>
      obtain ⟨p, hp, _⟩ := hex
      exact absurd hp (List.not_mem_nil p)
  | cons a t ih =>
      rw [List.pairwise_cons] at hpw
      by_cases hQ : Q a = true
      · have ht0 : t.countP Q = 0 := by
          rw [List.countP_eq_zero]
          intro x hx hQx
          exact hcontra a x (hpw.1 x hx) hQ hQx
        simp [List.countP_cons, hQ, ht0]
      · obtain ⟨p, hp, hQp⟩ := hex
        rcases List.mem_cons.1 hp with rfl | hp
        · exact absurd hQp hQ
        · have := ih hpw.2 ⟨p, hp, hQp⟩
          simp [List.countP_cons, hQ, this]

/-- Full correctness of the consolidation loop on a strictly increasing hour
list: the emitted `[start, end)` pairs are nonempty, cover exactly the stored
hours, are maximal on both sides, and each stored hour lies in exactly one
pair. -/
theorem consolidate_spec (l : List Nat) (hl : l.Pairwise (· < ·)) :
    (∀ p ∈ consolidate l, p.1 < p.2) ∧
    (∀ k : Nat, (∃ p ∈ consolidate l, p.1 ≤ k ∧ k < p.2) ↔ k ∈ l) ∧
    (∀ p ∈ consolidate l, p.2 ∉ l) ∧
    (∀ p ∈ consolidate l, ∀ k : Nat, k + 1 = p.1 → k ∉ l) ∧
    (∀ k ∈ l, (consolidate l).countP
      (fun p => decide (p.1 ≤ k) && decide (k < p.2)) = 1) := by
  cases l with
  | nil => simp [consolidate]
  | cons h t =>
      have hht : ∀ x ∈ t, h < x := (List.pairwise_cons.1 hl).1
      obtain ⟨ia, ib, ic, id_, ie_, if_⟩ :=
        consolidateAux_spec t h (h + 1) (by omega) (List.pairwise_cons.1 hl).2
          (fun x hx => by have := hht x hx; omega)
      rw [show consolidate (h :: t) = consolidateAux h (h + 1) t from rfl]
      have hib : ∀ k : Nat,
          (∃ p ∈ consolidateAux h (h + 1) t, p.1 ≤ k ∧ k < p.2) ↔ k ∈ h :: t := by
        intro k
        rw [ib k]
        constructor
        · rintro (hk | hk)
          · have hkh : k = h := by omega
            exact hkh ▸ List.mem_cons_self h t
          · exact List.mem_cons_of_mem _ hk
        · intro hk
          rcases List.mem_cons.1 hk with rfl | hk
          · exact Or.inl ⟨Nat.le_refl k, by omega⟩
          · exact Or.inr hk
      refine ⟨ia, hib, ?_, ?_, ?_⟩
      · intro p hp
        obtain ⟨ic1, ic2⟩ := ic p hp
        intro hmem
        rcases List.mem_cons.1 hmem with hm | hm
        · exact ic1 ⟨by omega, by omega⟩
        · exact ic2 hm
      · intro p hp k hk
        rcases id_ p hp with hph | ⟨h1, h2, h3⟩
        · intro hmem
          rcases List.mem_cons.1 hmem with hm | hm
          · omega
          · have := hht k hm
            omega
        · intro hmem
          rcases List.mem_cons.1 hmem with hm | hm
          · omega
          · have hk1 : k = p.1 - 1 := by omega
            exact h2 (hk1 ▸ hm)
      · intro k hk
        apply countP_eq_one_of_pairwise _ _ (fun p q => p.2 < q.1) ie_
        · intro p q hpq hQp hQq
          simp only [Bool.and_eq_true, decide_eq_true_eq] at hQp hQq
          omega
        · obtain ⟨p, hp, hpk⟩ := (hib k).2 hk
          refine ⟨p, hp, ?_⟩
          simp only [Bool.and_eq_true, decide_eq_true_eq]
          exact hpk

theorem filter_key_bind {α β M : Type} [DecidableEq β] (l : List α) (f : α → List M)
    (g : α → β) (kf : M → β)
    (hkey : ∀ x ∈ l, ∀ m ∈ f x, kf m = g x) (hnd : (l.map g).Nodup)
    (x : α) (hx : x ∈ l) :
    (l.flatMap f).filter (fun m => decide (kf m = g x)) = f x := by
  induction l with
  | nil => cases hx
  | cons y t ih =>
      rw [List.map_cons, List.nodup_cons] at hnd
      rw [List.flatMap_cons, List.filter_append]
      by_cases hyx : g y = g x
      · have hfx : f x = f y := by
          rcases List.mem_cons.1 hx with rfl | hxt
          · rfl
          · exact absurd (hyx ▸ List.mem_map_of_mem g hxt) hnd.1
        have hhead : (f y).filter (fun m => decide (kf m = g x)) = f y := by
          apply List.filter_eq_self.2
          intro m hm
          exact decide_eq_true ((hkey y (List.mem_cons_self y t) m hm).trans hyx)
        have htail : (t.flatMap f).filter (fun m => decide (kf m = g x)) = [] := by
          apply List.filter_eq_nil_iff.2
          intro m hm hdec
          obtain ⟨z, hz, hmz⟩ := List.mem_flatMap.1 hm
          have h1 : kf m = g z := hkey z (List.mem_cons_of_mem _ hz) m hmz
          have h2 : kf m = g x := of_decide_eq_true hdec
          have hgz : g y = g z := by rw [hyx, ← h2, h1]
          exact hnd.1 (hgz ▸ List.mem_map_of_mem g hz)
        rw [hhead, htail, hfx, List.append_nil]
      · have hxt : x ∈ t := by
          rcases List.mem_cons.1 hx with rfl | hh
          · exact absurd rfl hyx
          · exact hh
        have hhead : (f y).filter (fun m => decide (kf m = g x)) = [] := by
          apply List.filter_eq_nil_iff.2
          intro m hm hdec
          exact hyx ((hkey y (List.mem_cons_self y t) m hm).symm.trans
            (of_decide_eq_true hdec))
        rw [hhead, List.nil_append]
        exact ih (fun z hz => hkey z (List.mem_cons_of_mem _ hz)) hnd.2 hxt

theorem mem_extract_day (scen : BusinessScenario) (a : Assignment) (e' : Employee)
    (d' : Nat) (g : ShiftAssignment) (hg : g ∈ extract_day scen a e' d') :
    g.employeeId = e'.id ∧ g.day = d' := by
  unfold extract_day at hg
  obtain ⟨r', _, hg'⟩ := List.mem_flatMap.1 hg
  obtain ⟨p, _, rfl⟩ := List.mem_map.1 hg'
  exact ⟨rfl, rfl⟩

theorem filter_role_key {l : List String} {r : String} (hnd : l.Nodup) (hr : r ∈ l)
    (b : String → Bool) :
    (l.filter fun rid => decide (rid = r) && b rid) = if b r = true then [r] else [] := by
  induction l with
  | nil => cases hr
  | cons x t ih =>
      rw [List.nodup_cons] at hnd
      by_cases hx : x = r
      · subst hx
        have ht : (t.filter fun rid => decide (rid = x) && b rid) = [] := by
          apply List.filter_eq_nil_iff.2
          intro rid hrid hdec
          simp only [Bool.and_eq_true, decide_eq_true_eq] at hdec
          exact hnd.1 (hdec.1 ▸ hrid)
        by_cases hb : b x = true <;> simp [List.filter_cons, hb, ht]
      · have hrt : r ∈ t := by
          rcases List.mem_cons.1 hr with rfl | hh
          · exact absurd rfl hx
          · exact hh
        have hhead : (decide (x = r) && b x) = false := by
          rw [decide_eq_false hx, Bool.false_and]
        rw [List.filter_cons, if_neg (by rw [hhead]; exact Bool.false_ne_true)]
        exact ih hnd.2 hrt

theorem role_hours_for_eq_filter (scen : BusinessScenario) (a : Assignment)
    (e : Employee) (d : Nat) (r : String) (hnd : e.roles.Nodup) (hr : r ∈ e.roles) :
    role_hours_for scen a e d r = workedHours scen a e d r := by
  unfold role_hours_for workedHours
  induction operating_hours scen with
  | nil => rfl
  | cons x t ih =>
      rw [List.flatMap_cons, List.filter_cons, ih]
      rw [filter_role_key hnd hr (fun rid => a e.id d x rid)]
      by_cases hax : a e.id d x r = true <;> simp [hax]

theorem insertSorted_of_le (x : Nat) (l : List Nat) (hle : ∀ y ∈ l, x ≤ y) :
    insertSorted x l = x :: l := by
  cases l with
  | nil => rfl
  | cons y t =>
      rw [insertSorted, if_pos (hle y (List.mem_cons_self y t))]

theorem sortNat_of_pairwise (l : List Nat) (hl : l.Pairwise (· ≤ ·)) : sortNat l = l := by
  induction l with
  | nil => rfl
  | cons x t ih =>
      rw [List.pairwise_cons] at hl
      have hstep : sortNat (x :: t) = insertSorted x (sortNat t) := rfl
      rw [hstep, ih hl.2]
      exact insertSorted_of_le x t hl.1

theorem workedHours_pairwise (scen : BusinessScenario) (a : Assignment) (e : Employee)
    (d : Nat) (r : String) : (workedHours scen a e d r).Pairwise (· < ·) :=
  (List.pairwise_lt_range' _ _).filter _

/-- C5: consolidation correctness of the assembler.  For every successful
solve, the returned assignments are the extractor's; restricted to one
`(employee, day, role)` triple they are exactly one `[start, end)` interval
per maximal contiguous run of the hours whose shift variable is 1: each
interval is nonempty, every hour inside it is worked, the hour past its end
and the hour before its start are not worked, and every worked hour lies in
exactly one emitted interval.  (Hypotheses: employee ids, open days and the
employee's roles are duplicate-free, as they are for the set-like fields of
the spec's data model.) -/
theorem extract_assignments_consolidation (scen : BusinessScenario)
    (prev : List Assignment) (fa : Bool) (out : SolveOutcome)
    (hs : statusSuccess out.status = true) (e : Employee) (d : Nat) (r : String)
    (hids : (scen.employees.map Employee.id).Nodup) (hdnd : scen.daysOpen.Nodup)
    (hrnd : e.roles.Nodup) (he : e ∈ scen.employees) (hd : d ∈ scen.daysOpen)
    (hr : r ∈ e.roles) :
    ((solveStep scen prev fa out).1.assignments =
      extract_shift_assignments scen out.sol) ∧
    ((((extract_shift_assignments scen out.sol).filter
          (fun g => decide (g.employeeId = e.id))).filter
          (fun g => decide (g.day = d))).filter
          (fun g => decide (g.roleId = r))).map (fun g => (g.startHour, g.endHour))
      = consolidate (workedHours scen out.sol e d r) ∧
    (∀ p ∈ consolidate (workedHours scen out.sol e d r), p.1 < p.2) ∧
    (∀ p ∈ consolidate (workedHours scen out.sol e d r),
      ∀ k : Nat, p.1 ≤ k → k < p.2 → k ∈ workedHours scen out.sol e d r) ∧
    (∀ p ∈ consolidate (workedHours scen out.sol e d r),
      p.2 ∉ workedHours scen out.sol e d r ∧
      ∀ k : Nat, k + 1 = p.1 → k ∉ workedHours scen out.sol e d r) ∧
    (∀ k ∈ workedHours scen out.sol e d r,
      (consolidate (workedHours scen out.sol e d r)).countP
        (fun p => decide (p.1 ≤ k) && decide (k < p.2)) = 1) := by
  obtain ⟨ca, cb, cc, cd, ce⟩ :=
    consolidate_spec (workedHours scen out.sol e d r)
      (workedHours_pairwise scen out.sol e d r)
  have hL1 : (extract_shift_assignments scen out.sol).filter
      (fun g => decide (g.employeeId = e.id))
      = scen.daysOpen.flatMap (fun d' => extract_day scen out.sol e d') :=
    filter_key_bind scen.employees
      (fun emp => scen.daysOpen.flatMap fun d' => extract_day scen out.sol emp d')
      Employee.id ShiftAssignment.employeeId
      (fun emp _ m hm => by
        obtain ⟨d', _, hm'⟩ := List.mem_flatMap.1 hm
        exact (mem_extract_day scen out.sol emp d' m hm').1)
      hids e he
  have hL2 : (scen.daysOpen.flatMap (fun d' => extract_day scen out.sol e d')).filter
      (fun g => decide (g.day = d)) = extract_day scen out.sol e d :=
    filter_key_bind scen.daysOpen (fun d' => extract_day scen out.sol e d')
      (fun y => y) ShiftAssignment.day
      (fun d' _ m hm => (mem_extract_day scen out.sol e d' m hm).2)
      (by simpa using hdnd) d hd
  have hL3 : (extract_day scen out.sol e d).filter (fun g => decide (g.roleId = r))
      = (consolidate (sortNat (role_hours_for scen out.sol e d r))).map
          (fun p => ({ employeeId := e.id, employeeName := e.name, day := d,
                       startHour := p.1, endHour := p.2, roleId := r } :
            ShiftAssignment)) :=
    by
    unfold extract_day
    exact filter_key_bind _ _ (fun y => y) ShiftAssignment.roleId
      (fun r' _ m hm => by
        obtain ⟨p, _, rfl⟩ := List.mem_map.1 hm
        rfl)
      (by simpa using List.nodup_dedup e.roles) r (List.mem_dedup.2 hr)
  have hsorted : sortNat (role_hours_for scen out.sol e d r) =
      workedHours scen out.sol e d r := by
    rw [role_hours_for_eq_filter scen out.sol e d r hrnd hr]
    exact sortNat_of_pairwise _ ((workedHours_pairwise scen out.sol e d r).imp le_of_lt)
  refine ⟨?_, ?_, ca, ?_, ?_, ce⟩
  · unfold solveStep
    rw [if_pos hs]
  · rw [hL1, hL2, hL3, hsorted, List.map_map]
    exact (List.map_congr_left fun p _ => rfl).trans (List.map_id _)
  · intro p hp k hk1 hk2
    exact (cb k).1 ⟨p, hp, hk1, hk2⟩
  · intro p hp
    exact ⟨cc p hp, cd p hp⟩

/-- Witness for C5 on `gapScenario` with the all-one solution: the single
run of worked hours 9-10 on Monday is returned as the one interval
`[9, 11)`. -/
theorem extract_assignments_consolidation_witness :
    ((solveStep gapScenario [] false optimalFullOutcome).1.assignments =
      extract_shift_assignments gapScenario optimalFullOutcome.sol) ∧
    ((((extract_shift_assignments gapScenario optimalFullOutcome.sol).filter
          (fun g => decide (g.employeeId = gapEmployee.id))).filter
          (fun g => decide (g.day = 0))).filter
          (fun g => decide (g.roleId = "r"))).map (fun g => (g.startHour, g.endHour))
      = consolidate (workedHours gapScenario optimalFullOutcome.sol gapEmployee 0 "r") ∧
    (∀ p ∈ consolidate (workedHours gapScenario optimalFullOutcome.sol gapEmployee 0 "r"),
      p.1 < p.2) ∧
    (∀ p ∈ consolidate (workedHours gapScenario optimalFullOutcome.sol gapEmployee 0 "r"),
      ∀ k : Nat, p.1 ≤ k → k < p.2 →
        k ∈ workedHours gapScenario optimalFullOutcome.sol gapEmployee 0 "r") ∧
    (∀ p ∈ consolidate (workedHours gapScenario optimalFullOutcome.sol gapEmployee 0 "r"),
      p.2 ∉ workedHours gapScenario optimalFullOutcome.sol gapEmployee 0 "r" ∧
      ∀ k : Nat, k + 1 = p.1 →
        k ∉ workedHours gapScenario optimalFullOutcome.sol gapEmployee 0 "r") ∧
    (∀ k ∈ workedHours gapScenario optimalFullOutcome.sol gapEmployee 0 "r",
      (consolidate (workedHours gapScenario optimalFullOutcome.sol gapEmployee 0 "r")).countP
        (fun p => decide (p.1 ≤ k) && decide (k < p.2)) = 1) :=
  extract_assignments_consolidation gapScenario [] false optimalFullOutcome (by decide)
    gapEmployee 0 "r" (by decide) (by decide) (by decide) (by decide) (by decide)
    (by decide)

end StaffScheduler
